import Mathlib

/-!
# Verification of the house-pricing crawl-and-merge pipeline

Shallow embedding of the scraping notebook
(`src/web_scraping/notebooks/web_scraping.ipynb`): per-listing field
extraction with missing-field fallback, location filtering against a
configured neighborhood list, the paginated link-collection loop, the
site batch construction, and the incremental merge with composite-key
deduplication.

Python strings are modelled as `List Char`; the Python substring test
`pat in s` is `strIn pat s`; `str.strip()` is `strip`.  BeautifulSoup
documents are modelled by the three query operations the notebook uses
(`find("span", {"aria-label": l})`, `find("span", text=l)`,
`elem.find_next("span")`).  A call that would raise an `AttributeError`
in Python (calling `.text` on `None`) is modelled as `Except.error ()`.
-/

set_option autoImplicit false

namespace MapValue

/-- Python strings, modelled as lists of characters. -/
abbrev Str := List Char

/-- Python substring test `pat in s`. -/
def strIn (pat : Str) : Str → Bool
  | [] => pat.isEmpty
  | c :: t => pat.isPrefixOf (c :: t) || strIn pat t

/-- Number of positions of `s` at which `pat` occurs as a contiguous substring. -/
def countOcc (pat : Str) : Str → Nat
  | [] => if pat.isEmpty then 1 else 0
  | c :: t => (if pat.isPrefixOf (c :: t) then 1 else 0) + countOcc pat t

/-- Python `str.strip()`: remove leading and trailing whitespace. -/
def strip (s : Str) : Str :=
  ((s.dropWhile Char.isWhitespace).reverse.dropWhile Char.isWhitespace).reverse

/-- The sentinel value `"N/A"` used for unavailable fields. -/
def naStr : Str := "N/A".data

/-- The target-area name `"Alexandria"`. -/
def alexandria : Str := "Alexandria".data

/-- The suffix `", Alexandria"` appended by the location normalizations. -/
def commaAlexandria : Str := ", Alexandria".data

/-- One scraped property record: the `data` dict built by
`extract_property_data`, with its five fixed keys. -/
structure Listing where
  price : Str
  area : Str
  bedrooms : Str
  bathrooms : Str
  location : Str
deriving DecidableEq

/-- The composite dedup key: the 5-tuple of all fields, as in
`drop_duplicates(subset=["price", "area", "bedrooms", "bathrooms", "location"])`. -/
def key (r : Listing) : Str × Str × Str × Str × Str :=
  (r.price, r.area, r.bedrooms, r.bathrooms, r.location)

/-- Number of records of `rows` whose composite key is `k`. -/
def countKey (k : Str × Str × Str × Str × Str) (rows : List Listing) : Nat :=
  rows.countP (fun r => decide (key r = k))

/-- `drop_duplicates(subset=key, keep="first")`, operationally: walk the rows
in order, keeping a row iff its composite key has not been seen before. -/
def dropDuplicatesAux (seen : List (Str × Str × Str × Str × Str)) :
    List Listing → List Listing
  | [] => []
  | r :: rest =>
    if key r ∈ seen then dropDuplicatesAux seen rest
    else r :: dropDuplicatesAux (key r :: seen) rest

/-- `drop_duplicates` by the 5-field composite key, keeping first occurrences. -/
def dropDuplicatesByKey (rows : List Listing) : List Listing :=
  dropDuplicatesAux [] rows

/-- The incremental-merge cell: if the existing dataset is nonempty,
concatenate existing + new and drop duplicates by the composite key keeping
the first occurrence; otherwise the combined dataset is just the new batch. -/
def mergeDatasets (existing newBatch : List Listing) : List Listing :=
  if existing.isEmpty then newBatch
  else dropDuplicatesByKey (existing ++ newBatch)

/-- The second-pass normalization lambda from the incremental-merge cell:
`lambda x: x if "Alexandria" in x else x + ", Alexandria"`. -/
def addAlexandriaIfMissing (x : Str) : Str :=
  if strIn alexandria x then x else x ++ commaAlexandria

/-- The location post-processing inside `extract_property_data`
(comment in source: "Ensure the location is in Alexandria"): if any
configured neighborhood occurs in the location then append ", Alexandria"
when missing, otherwise force the sentinel `"N/A"`. -/
def ensureLocationInAlexandria (neighborhoods : List Str) (location : Str) : Str :=
  if neighborhoods.any (fun nb => strIn nb location) then
    if strIn alexandria location then location else location ++ commaAlexandria
  else naStr

/-- An element of a parsed document; only its text content matters here. -/
structure Element where
  text : Str
deriving DecidableEq

/-- A parsed detail document, modelled by the three BeautifulSoup queries
`extract_property_data` performs: `soup.find("span", {"aria-label": l})`,
`soup.find("span", text=l)`, and `elem.find_next("span")`. -/
structure Doc where
  findSpanAria : Str → Option Element
  findSpanText : Str → Option Element
  findNextSpan : Element → Option Element

/-- The field-label schema of one site configuration (`config["FIELDS"]`):
`labels["price"]["aria_label"]`, `labels["area"]["text_label"]`, etc. -/
structure Labels where
  priceAria : Str
  areaText : Str
  bedroomsText : Str
  bathroomsText : Str
  locationAria : Str

/-- One text-anchor field of `extract_property_data`, e.g.
`area_label.find_next("span").text.strip() if area_label else "N/A"`.
When the label element exists but `find_next("span")` returns `None`,
Python evaluates `None.text` and raises `AttributeError`: modelled as
`Except.error ()`. -/
def textAnchorField (soup : Doc) (textLabel : Str) : Except Unit Str :=
  match soup.findSpanText textLabel with
  | some labelElem =>
    match soup.findNextSpan labelElem with
    | some valueElem => .ok (strip valueElem.text)
    | none => .error ()
  | none => .ok naStr

/-- `extract_property_data`: build the five-field record from one detail
document, with the location post-processing applied at the end. -/
def extract_property_data (soup : Doc) (labels : Labels)
    (neighborhoods : List Str) : Except Unit Listing := do
  let price := match soup.findSpanAria labels.priceAria with
    | some priceElem => strip priceElem.text
    | none => naStr
  let area ← textAnchorField soup labels.areaText
  let bedrooms ← textAnchorField soup labels.bedroomsText
  let bathrooms ← textAnchorField soup labels.bathroomsText
  let rawLocation := match soup.findSpanAria labels.locationAria with
    | some locationElem => strip locationElem.text
    | none => naStr
  let location := ensureLocationInAlexandria neighborhoods rawLocation
  return { price, area, bedrooms, bathrooms, location }

/-- The raw location value of a document before post-processing:
`location_elem.text.strip() if location_elem else "N/A"`. -/
def rawLocationOf (soup : Doc) (labels : Labels) : Str :=
  match soup.findSpanAria labels.locationAria with
  | some locationElem => strip locationElem.text
  | none => naStr

/-- `get_property_links` applied to a fetched page: each listing `div` is
modelled by the link of its first `<a>` if it has one; the comprehension
`[div.find("a")["href"] for div in listing_divs if div.find("a")]` keeps
the links of the divs that have one. -/
def get_property_links (listingDivs : List (Option Str)) : List Str :=
  listingDivs.filterMap id

/-- The link-collection loop of `scrape_website`, fetching pages `page`,
`page+1`, ... for at most `fuel` iterations and stopping the first time a
page yields no links.  Returns the collected links together with the list
of page numbers actually fetched. -/
def collectLinks (sitePages : Nat → List (Option Str)) :
    Nat → Nat → List Str × List Nat
  | _, 0 => ([], [])
  | page, fuel + 1 =>
    let links := get_property_links (sitePages page)
    if links.isEmpty then ([], [page])
    else
      let rest := collectLinks sitePages (page + 1) fuel
      (links ++ rest.1, page :: rest.2)

/-- The link-collection phase of `scrape_website`:
`for page in range(1, max_pages + 1)`. -/
def scrapeLinks (sitePages : Nat → List (Option Str)) (maxPages : Nat) :
    List Str × List Nat :=
  collectLinks sitePages 1 maxPages

/-- The detail-extraction loop of `scrape_website`: extract each linked
document and keep the record only if `data["location"] != "N/A"`.  An
extraction that raises propagates (aborting the loop), as in Python. -/
def collectListings (docs : Str → Doc) (labels : Labels)
    (neighborhoods : List Str) : List Str → Except Unit (List Listing)
  | [] => .ok []
  | link :: rest => do
    let data ← extract_property_data (docs link) labels neighborhoods
    let tail ← collectListings docs labels neighborhoods rest
    return if data.location ≠ naStr then data :: tail else tail

/-- `scrape_website`: collect links from pages `1..maxPages` (stopping at
the first empty page), then extract and filter each linked document. -/
def scrape_website (sitePages : Nat → List (Option Str)) (docs : Str → Doc)
    (labels : Labels) (neighborhoods : List Str) (maxPages : Nat) :
    Except Unit (List Listing) :=
  collectListings docs labels neighborhoods (scrapeLinks sitePages maxPages).1

/-! ## Helper lemmas on strings -/

/-- If `pat` occurs in `b` then `pat` occurs in `a ++ b`. -/
theorem strIn_append_right (pat a b : Str) (h : strIn pat b = true) :
    strIn pat (a ++ b) = true := by
  induction a with
  | nil => simpa using h
  | cons c t ih =>
    simp only [List.cons_append, strIn, Bool.or_eq_true]
    exact Or.inr ih

/-- Removing a banned head character: whether `pat` is a prefix of
`l ++ h :: t` is decided within `l` whenever `h` does not occur in `pat`. -/
theorem isPrefixOf_append_cons (pat : Str) (h : Char) (t : Str)
    (hh : h ∉ pat) : ∀ l : Str, pat.isPrefixOf (l ++ h :: t) = pat.isPrefixOf l := by
  induction pat with
  | nil => intro l; cases l <;> rfl
  | cons p ps ih =>
    intro l
    cases l with
    | nil =>
      simp only [List.nil_append, List.isPrefixOf]
      have hne : (p == h) = false := by
        simp only [List.mem_cons, not_or] at hh
        simp [beq_iff_eq]
        exact fun e => hh.1 e.symm
      simp [hne]
    | cons x l =>
      simp only [List.cons_append, List.isPrefixOf, List.append_eq]
      have : h ∉ ps := fun hmem => hh (List.mem_cons_of_mem _ hmem)
      rw [ih this]

/-- Occurrence counting splits across an append whose right part starts
with a character absent from the pattern. -/
theorem countOcc_append_cons (pat : Str) (h : Char) (t : Str)
    (hp : pat ≠ []) (hh : h ∉ pat) :
    ∀ a : Str, countOcc pat (a ++ h :: t) = countOcc pat a + countOcc pat (h :: t) := by
  intro a
  induction a with
  | nil =>
    simp only [List.nil_append, countOcc]
    have : pat.isEmpty = false := by simpa [List.isEmpty_iff] using hp
    simp [this]
  | cons c a ih =>
    simp only [List.cons_append, countOcc, List.append_eq]
    have hpre : List.isPrefixOf pat (c :: (a ++ h :: t)) = List.isPrefixOf pat (c :: a) :=
      isPrefixOf_append_cons pat h t hh (c :: a)
    simp only [hpre, ih, countOcc]
    omega

/-- A pattern that does not occur in `s` has no occurrences in `s`. -/
theorem countOcc_eq_zero_of_not_strIn (pat s : Str) (h : strIn pat s = false) :
    countOcc pat s = 0 := by
  induction s with
  | nil =>
    simp only [strIn] at h
    simp [countOcc, h]
  | cons c t ih =>
    simp only [strIn, Bool.or_eq_false_iff] at h
    simp only [countOcc, h.1, if_false]
    simpa using ih h.2

/-! ## Helper lemmas on the composite-key dedup -/

/-- Key-count characterization of the dedup walk: a key already seen is
dropped entirely; an unseen key present in the rows survives exactly once. -/
theorem countKey_dropDuplicatesAux (k : Str × Str × Str × Str × Str)
    (rows : List Listing) : ∀ seen,
    countKey k (dropDuplicatesAux seen rows) =
      if k ∈ seen then 0
      else if rows.any (fun r => decide (key r = k)) then 1 else 0 := by
  induction rows with
  | nil =>
    intro seen
    simp [dropDuplicatesAux, countKey]
  | cons r rest ih =>
    intro seen
    by_cases hr : key r ∈ seen
    · rw [show dropDuplicatesAux seen (r :: rest) = dropDuplicatesAux seen rest from
        by simp [dropDuplicatesAux, hr], ih seen]
      by_cases hk : k ∈ seen
      · simp [hk]
      · have hne : ¬(key r = k) := fun e => hk (e ▸ hr)
        simp [hk, hne]
    · rw [show dropDuplicatesAux seen (r :: rest) =
        r :: dropDuplicatesAux (key r :: seen) rest from by simp [dropDuplicatesAux, hr]]
      by_cases hk : key r = k
      · have hkseen : k ∉ seen := fun hs => hr (hk ▸ hs)
        rw [show countKey k (r :: dropDuplicatesAux (key r :: seen) rest) =
          countKey k (dropDuplicatesAux (key r :: seen) rest) + 1 from by
            simp [countKey, List.countP_cons, hk]]
        rw [ih (key r :: seen)]
        simp [hkseen, hk]
      · rw [show countKey k (r :: dropDuplicatesAux (key r :: seen) rest) =
          countKey k (dropDuplicatesAux (key r :: seen) rest) from by
            simp [countKey, List.countP_cons, hk]]
        rw [ih (key r :: seen)]
        by_cases hkseen : k ∈ seen
        · simp [hkseen]
        · have : k ∉ key r :: seen := by
            simp only [List.mem_cons, not_or]
            exact ⟨fun e => hk e.symm, hkseen⟩
          simp [this, hkseen, hk]

/-- First-record characterization of the dedup walk: for an unseen key the
first surviving record is the first record of the input with that key. -/
theorem find_dropDuplicatesAux (k : Str × Str × Str × Str × Str)
    (rows : List Listing) : ∀ seen,
    (dropDuplicatesAux seen rows).find? (fun r => decide (key r = k)) =
      if k ∈ seen then none else rows.find? (fun r => decide (key r = k)) := by
  induction rows with
  | nil =>
    intro seen
    simp [dropDuplicatesAux]
  | cons r rest ih =>
    intro seen
    by_cases hr : key r ∈ seen
    · rw [show dropDuplicatesAux seen (r :: rest) = dropDuplicatesAux seen rest from
        by simp [dropDuplicatesAux, hr], ih seen]
      by_cases hk : k ∈ seen
      · simp [hk]
      · have hne : ¬(key r = k) := fun e => hk (e ▸ hr)
        simp [hk, List.find?_cons, hne]
    · rw [show dropDuplicatesAux seen (r :: rest) =
        r :: dropDuplicatesAux (key r :: seen) rest from by simp [dropDuplicatesAux, hr]]
      by_cases hk : key r = k
      · have hkseen : k ∉ seen := fun hs => hr (hk ▸ hs)
        simp [List.find?_cons, hk, hkseen]
      · rw [show (r :: dropDuplicatesAux (key r :: seen) rest).find?
            (fun r => decide (key r = k)) =
          (dropDuplicatesAux (key r :: seen) rest).find?
            (fun r => decide (key r = k)) from by simp [List.find?_cons, hk]]
        rw [ih (key r :: seen)]
        by_cases hkseen : k ∈ seen
        · simp [hkseen, hk]
        · have : k ∉ key r :: seen := by
            simp only [List.mem_cons, not_or]
            exact ⟨fun e => hk e.symm, hkseen⟩
          simp [this, hkseen, List.find?_cons, hk]

/-- The dedup walk leaves a list untouched when its keys are pairwise
distinct and none of them has been seen yet. -/
theorem dropDuplicatesAux_eq_self (rows : List Listing)
    (hpw : rows.Pairwise (fun a b => key a ≠ key b)) : ∀ seen,
    (∀ r ∈ rows, key r ∉ seen) → dropDuplicatesAux seen rows = rows := by
  induction rows with
  | nil => intro seen _; rfl
  | cons r rest ih =>
    intro seen hseen
    have hr : key r ∉ seen := hseen r (List.mem_cons_self r rest)
    rw [show dropDuplicatesAux seen (r :: rest) =
      r :: dropDuplicatesAux (key r :: seen) rest from by simp [dropDuplicatesAux, hr]]
    have hpw' := (List.pairwise_cons.mp hpw).2
    have hhead := (List.pairwise_cons.mp hpw).1
    rw [ih hpw' (key r :: seen) ?_]
    intro s hs
    simp only [List.mem_cons, not_or]
    exact ⟨fun e => hhead s hs e.symm, hseen s (List.mem_cons_of_mem r hs)⟩

/-! ## Sample data for witnesses and counterexamples -/

/-- A sample scraped record used in witnesses. -/
def sampleListing : Listing :=
  ⟨"1000".data, "120".data, "3".data, "2".data, "Smouha, Alexandria".data⟩

/-! ## Merge/dedup claims -/

/-- Claim C1 (counterexample): when the prior dataset is empty, the merge
cell returns the new batch without deduplicating it, so a batch holding the
same record twice yields a dataset with two records sharing one composite
key — the claimed "exactly one record per key ... including the case where
the prior dataset is empty" fails. -/
theorem c1_empty_prior_skips_dedup :
    mergeDatasets [] [sampleListing, sampleListing] = [sampleListing, sampleListing] ∧
    countKey (key sampleListing) (mergeDatasets [] [sampleListing, sampleListing]) = 2 := by
  exact ⟨rfl, by decide⟩

/-- Claim C1 (amended): for every NONEMPTY existing dataset and every new
batch, the merged dataset contains exactly one record per composite key
present in either input, and for every key occurring in the existing
dataset the surviving record is the first existing record with that key
(existing records take precedence over new ones). -/
theorem c1_merge_dedup_amended (existing newBatch : List Listing)
    (hne : existing ≠ []) :
    (∀ k, countKey k (mergeDatasets existing newBatch) =
       if (existing ++ newBatch).any (fun r => decide (key r = k)) then 1 else 0) ∧
    (∀ r ∈ existing,
       (mergeDatasets existing newBatch).find? (fun s => decide (key s = key r)) =
         existing.find? (fun s => decide (key s = key r))) := by
  have hempty : existing.isEmpty = false := by simpa [List.isEmpty_iff] using hne
  constructor
  · intro k
    simp only [mergeDatasets, hempty, Bool.false_eq_true, if_false,
      dropDuplicatesByKey]
    rw [countKey_dropDuplicatesAux]
    simp
  · intro r hr
    simp only [mergeDatasets, hempty, Bool.false_eq_true, if_false,
      dropDuplicatesByKey]
    rw [find_dropDuplicatesAux]
    simp only [List.not_mem_nil, if_false, List.find?_append]
    have hsome : (existing.find? (fun s => decide (key s = key r))).isSome := by
      rw [List.find?_isSome]
      exact ⟨r, hr, by simp⟩
    obtain ⟨x, hx⟩ := Option.isSome_iff_exists.mp hsome
    rw [hx]
    rfl

/-- Witness for the amended C1 at a concrete nonempty dataset. -/
theorem c1_merge_dedup_amended_witness :
    countKey (key sampleListing) (mergeDatasets [sampleListing] [sampleListing]) = 1 ∧
    (mergeDatasets [sampleListing] [sampleListing]).find?
        (fun s => decide (key s = key sampleListing)) =
      [sampleListing].find? (fun s => decide (key s = key sampleListing)) := by
  have h := c1_merge_dedup_amended [sampleListing] [sampleListing] (by decide)
  exact ⟨(h.1 (key sampleListing)).trans (by decide), h.2 sampleListing (by decide)⟩

/-- Claim C6: merging a dataset with pairwise-distinct composite keys with
an empty batch returns the identical dataset, records and order unchanged. -/
theorem c6_merge_empty_batch_identity (d : List Listing)
    (hdedup : d.Pairwise (fun a b => key a ≠ key b)) :
    mergeDatasets d [] = d := by
  cases d with
  | nil => rfl
  | cons r rest =>
    simp only [mergeDatasets, List.isEmpty_cons, Bool.false_eq_true, if_false,
      List.append_nil, dropDuplicatesByKey]
    exact dropDuplicatesAux_eq_self (r :: rest) hdedup []
      (fun s _ => List.not_mem_nil _)

/-- Witness for C6 at a concrete already-deduplicated dataset. -/
theorem c6_merge_empty_batch_identity_witness :
    mergeDatasets [sampleListing] [] = [sampleListing] :=
  c6_merge_empty_batch_identity [sampleListing] (by simp)

/-- Claim C7: when no prior dataset exists (the existing dataset is empty),
the merge cell returns the new batch itself, unchanged. -/
theorem c7_merge_empty_prior (newBatch : List Listing) :
    mergeDatasets [] newBatch = newBatch := rfl

/-! ## Location-normalization claims -/

/-- Claim C9: the second-pass normalization lambda
`lambda x: x if "Alexandria" in x else x + ", Alexandria"` is idempotent,
and its result always contains the target-area name "Alexandria". -/
theorem c9_addAlexandria_idempotent (x : Str) :
    addAlexandriaIfMissing (addAlexandriaIfMissing x) = addAlexandriaIfMissing x ∧
    strIn alexandria (addAlexandriaIfMissing x) = true := by
  by_cases h : strIn alexandria x = true
  · simp [addAlexandriaIfMissing, h]
  · have h' : strIn alexandria x = false := by simpa using h
    have hc : strIn alexandria (x ++ commaAlexandria) = true :=
      strIn_append_right _ _ _ (by decide)
    simp [addAlexandriaIfMissing, h', hc]

/-- Claim C4: if the raw location contains a configured neighborhood and
does not contain "Alexandria", the stored location is the raw text with
", Alexandria" appended and contains "Alexandria" exactly once (that
occurrence lying in the appended suffix); if the raw location contains a
configured neighborhood and already contains "Alexandria", it is stored
unchanged. -/
theorem c4_location_append_exactly_once (neighborhoods : List Str) (raw : Str) :
    (neighborhoods.any (fun nb => strIn nb raw) = true →
     strIn alexandria raw = false →
       ensureLocationInAlexandria neighborhoods raw = raw ++ commaAlexandria ∧
       countOcc alexandria (ensureLocationInAlexandria neighborhoods raw) = 1) ∧
    (neighborhoods.any (fun nb => strIn nb raw) = true →
     strIn alexandria raw = true →
       ensureLocationInAlexandria neighborhoods raw = raw) := by
  constructor
  · intro hnb halex
    have heq : ensureLocationInAlexandria neighborhoods raw = raw ++ commaAlexandria := by
      simp [ensureLocationInAlexandria, hnb, halex]
    refine ⟨heq, ?_⟩
    rw [heq, show commaAlexandria = ',' :: " Alexandria".data from rfl,
      countOcc_append_cons alexandria ',' " Alexandria".data (by decide) (by decide) raw,
      countOcc_eq_zero_of_not_strIn _ _ halex]
    decide
  · intro hnb halex
    simp [ensureLocationInAlexandria, hnb, halex]

/-- Witness for C4 at concrete raw locations, one per branch. -/
theorem c4_location_append_exactly_once_witness :
    (ensureLocationInAlexandria ["Smouha".data] "Smouha".data =
       "Smouha".data ++ commaAlexandria ∧
     countOcc alexandria (ensureLocationInAlexandria ["Smouha".data] "Smouha".data) = 1) ∧
    ensureLocationInAlexandria ["Smouha".data] "Smouha, Alexandria".data =
      "Smouha, Alexandria".data :=
  ⟨(c4_location_append_exactly_once ["Smouha".data] "Smouha".data).1
      (by decide) (by decide),
   (c4_location_append_exactly_once ["Smouha".data] "Smouha, Alexandria".data).2
      (by decide) (by decide)⟩

/-! ## Crawler claims -/

/-- The link-collection loop started at `start` with `fuel` remaining
iterations, when page `k` is the first page at or after `start` yielding no
links and `k` is within reach: the loop returns the links of pages
`start..k-1` in order and fetches exactly pages `start..k`. -/
theorem collectLinks_stops (sitePages : Nat → List (Option Str)) :
    ∀ fuel start k, start ≤ k → k < start + fuel →
    get_property_links (sitePages k) = [] →
    (∀ j, start ≤ j → j < k → get_property_links (sitePages j) ≠ []) →
    collectLinks sitePages start fuel =
      (((List.range' start (k - start)).map
          (fun j => get_property_links (sitePages j))).flatten,
       List.range' start (k - start + 1)) := by
  intro fuel
  induction fuel with
  | zero =>
    intro start k h1 h2
    omega
  | succ fuel ih =>
    intro start k h1 h2 hk hbefore
    by_cases hsk : start = k
    · subst hsk
      have hempty : (get_property_links (sitePages start)).isEmpty = true := by
        simp [hk]
      simp [collectLinks, hempty]
    · have hlt : start < k := lt_of_le_of_ne h1 hsk
      have hne : get_property_links (sitePages start) ≠ [] :=
        hbefore start le_rfl hlt
      have hempty : (get_property_links (sitePages start)).isEmpty = false := by
        simpa [List.isEmpty_iff] using hne
      simp only [collectLinks, hempty, Bool.false_eq_true, if_false]
      rw [ih (start + 1) k (by omega) (by omega) hk
        (fun j hj1 hj2 => hbefore j (by omega) hj2)]
      have hsub : k - start = (k - (start + 1)) + 1 := by omega
      rw [hsub]
      simp [List.range'_succ]

/-- The link-collection loop started at `start` with `fuel` iterations,
when every page in `start..start+fuel-1` yields links: the loop returns
the links of all those pages and fetches exactly them. -/
theorem collectLinks_exhausts (sitePages : Nat → List (Option Str)) :
    ∀ fuel start,
    (∀ j, start ≤ j → j < start + fuel → get_property_links (sitePages j) ≠ []) →
    collectLinks sitePages start fuel =
      (((List.range' start fuel).map
          (fun j => get_property_links (sitePages j))).flatten,
       List.range' start fuel) := by
  intro fuel
  induction fuel with
  | zero =>
    intro start _
    simp [collectLinks]
  | succ fuel ih =>
    intro start hall
    have hne : get_property_links (sitePages start) ≠ [] :=
      hall start le_rfl (by omega)
    have hempty : (get_property_links (sitePages start)).isEmpty = false := by
      simpa [List.isEmpty_iff] using hne
    simp only [collectLinks, hempty, Bool.false_eq_true, if_false]
    rw [ih (start + 1) (fun j hj1 hj2 => hall j (by omega) (by omega))]
    rw [List.range'_succ]
    simp

/-- Claim C3: if page `k` (with `1 ≤ k ≤ maxPages`) is the first page
yielding zero links, the link-collection phase of `scrape_website` returns the
concatenation of the links of pages `1..k-1` in page order and fetches
exactly pages `1..k` (no page after `k`); if no page in `1..maxPages`
yields zero links, it returns the links of all `maxPages` pages. -/
theorem c3_crawl_termination (sitePages : Nat → List (Option Str))
    (maxPages k : Nat) :
    (1 ≤ k → k ≤ maxPages → get_property_links (sitePages k) = [] →
     (∀ j, 1 ≤ j → j < k → get_property_links (sitePages j) ≠ []) →
     scrapeLinks sitePages maxPages =
       (((List.range' 1 (k - 1)).map
           (fun j => get_property_links (sitePages j))).flatten,
        List.range' 1 k)) ∧
    ((∀ j, 1 ≤ j → j ≤ maxPages → get_property_links (sitePages j) ≠ []) →
     scrapeLinks sitePages maxPages =
       (((List.range' 1 maxPages).map
           (fun j => get_property_links (sitePages j))).flatten,
        List.range' 1 maxPages)) := by
  constructor
  · intro h1 h2 hk hbefore
    rw [scrapeLinks, collectLinks_stops sitePages maxPages 1 k h1 (by omega) hk
      (fun j hj1 hj2 => hbefore j hj1 hj2)]
    have : k - 1 + 1 = k := by omega
    rw [this]
  · intro hall
    rw [scrapeLinks, collectLinks_exhausts sitePages maxPages 1
      (fun j hj1 hj2 => hall j hj1 (by omega))]

/-- Witness for C3: page 1 has two listing divs, one with a link; page 2 is
empty; `maxPages = 3`.  The crawl returns that single link having fetched
only pages 1 and 2. -/
theorem c3_crawl_termination_witness :
    scrapeLinks
      (fun j => if j = 1 then [some "/prop/1".data, none] else []) 3 =
      (["/prop/1".data], [1, 2]) := by
  have h := (c3_crawl_termination
    (fun j => if j = 1 then [some "/prop/1".data, none] else []) 3 2).1
    (by decide) (by decide) (by decide) ?_
  · rw [h]
    decide
  · intro j hj1 hj2
    have : j = 1 := by omega
    subst this
    decide

/-! ## Characterization of `extract_property_data` -/

/-- When all three text-anchor fields resolve without raising,
`extract_property_data` returns the fully determined record. -/
theorem extract_property_data_eq_ok (soup : Doc) (labels : Labels)
    (neighborhoods : List Str) (area bedrooms bathrooms : Str)
    (ha : textAnchorField soup labels.areaText = .ok area)
    (hb : textAnchorField soup labels.bedroomsText = .ok bedrooms)
    (hc : textAnchorField soup labels.bathroomsText = .ok bathrooms) :
    extract_property_data soup labels neighborhoods = .ok
      { price := match soup.findSpanAria labels.priceAria with
          | some priceElem => strip priceElem.text
          | none => naStr,
        area := area, bedrooms := bedrooms, bathrooms := bathrooms,
        location := ensureLocationInAlexandria neighborhoods
          (rawLocationOf soup labels) } := by
  simp only [extract_property_data, ha, hb, hc, Bind.bind, Except.bind, pure,
    Except.pure, rawLocationOf]

/-- Any record successfully returned by `extract_property_data` carries the
post-processed location of its document. -/
theorem extract_property_data_ok_location (soup : Doc) (labels : Labels)
    (neighborhoods : List Str) (d : Listing)
    (h : extract_property_data soup labels neighborhoods = .ok d) :
    d.location = ensureLocationInAlexandria neighborhoods
      (rawLocationOf soup labels) := by
  cases ha : textAnchorField soup labels.areaText with
  | error e => simp [extract_property_data, ha, Bind.bind, Except.bind] at h
  | ok area =>
  cases hb : textAnchorField soup labels.bedroomsText with
  | error e => simp [extract_property_data, ha, hb, Bind.bind, Except.bind] at h
  | ok bedrooms =>
  cases hc : textAnchorField soup labels.bathroomsText with
  | error e => simp [extract_property_data, ha, hb, hc, Bind.bind, Except.bind] at h
  | ok bathrooms =>
    rw [extract_property_data_eq_ok soup labels neighborhoods area bedrooms
      bathrooms ha hb hc] at h
    injection h with h
    subst h
    rfl

/-! ## Characterization of the detail-extraction loop -/

/-- Every record in a successfully built batch passed the acceptance gate:
its location is not the sentinel. -/
theorem collectListings_location_ne (docs : Str → Doc) (labels : Labels)
    (neighborhoods : List Str) : ∀ links batch,
    collectListings docs labels neighborhoods links = .ok batch →
    ∀ d ∈ batch, d.location ≠ naStr := by
  intro links
  induction links with
  | nil =>
    intro batch h d hd
    simp only [collectListings, Except.ok.injEq] at h
    subst h
    cases hd
  | cons link rest ih =>
    intro batch h d hd
    cases he : extract_property_data (docs link) labels neighborhoods with
    | error e => simp [collectListings, he, Bind.bind, Except.bind] at h
    | ok r =>
    cases ht : collectListings docs labels neighborhoods rest with
    | error e => simp [collectListings, he, ht, Bind.bind, Except.bind] at h
    | ok tail =>
      simp only [collectListings, he, ht, Bind.bind, Except.bind, pure,
        Except.pure, Except.ok.injEq] at h
      subst h
      by_cases hr : r.location = naStr
      · rw [if_neg (by simpa using hr)] at hd
        exact ih tail ht d hd
      · rw [if_pos (by simpa using hr)] at hd
        cases hd with
        | head => exact hr
        | tail _ hd => exact ih tail ht d hd

/-- A record extracted from a collected link whose location is not the
sentinel is in the batch. -/
theorem collectListings_mem (docs : Str → Doc) (labels : Labels)
    (neighborhoods : List Str) : ∀ links batch,
    collectListings docs labels neighborhoods links = .ok batch →
    ∀ link ∈ links, ∀ d,
    extract_property_data (docs link) labels neighborhoods = .ok d →
    d.location ≠ naStr → d ∈ batch := by
  intro links
  induction links with
  | nil =>
    intro batch _ link hlink
    cases hlink
  | cons link0 rest ih =>
    intro batch h link hlink d hd hne
    cases he : extract_property_data (docs link0) labels neighborhoods with
    | error e => simp [collectListings, he, Bind.bind, Except.bind] at h
    | ok r =>
    cases ht : collectListings docs labels neighborhoods rest with
    | error e => simp [collectListings, he, ht, Bind.bind, Except.bind] at h
    | ok tail =>
      simp only [collectListings, he, ht, Bind.bind, Except.bind, pure,
        Except.pure, Except.ok.injEq] at h
      subst h
      cases hlink with
      | head =>
        have : r = d := by rw [he] at hd; injection hd
        subst this
        rw [if_pos (by simpa using hne)]
        exact List.mem_cons_self r tail
      | tail _ hlink =>
        have hmem : d ∈ tail := ih tail ht link hlink d hd hne
        by_cases hr : r.location = naStr
        · rw [if_neg (by simpa using hr)]
          exact hmem
        · rw [if_pos (by simpa using hr)]
          exact List.mem_cons_of_mem r hmem

/-- Every record of a successfully built batch was extracted from one of
the collected links. -/
theorem collectListings_source (docs : Str → Doc) (labels : Labels)
    (neighborhoods : List Str) : ∀ links batch,
    collectListings docs labels neighborhoods links = .ok batch →
    ∀ d ∈ batch, ∃ link ∈ links,
      extract_property_data (docs link) labels neighborhoods = .ok d := by
  intro links
  induction links with
  | nil =>
    intro batch h d hd
    simp only [collectListings, Except.ok.injEq] at h
    subst h
    cases hd
  | cons link0 rest ih =>
    intro batch h d hd
    cases he : extract_property_data (docs link0) labels neighborhoods with
    | error e => simp [collectListings, he, Bind.bind, Except.bind] at h
    | ok r =>
    cases ht : collectListings docs labels neighborhoods rest with
    | error e => simp [collectListings, he, ht, Bind.bind, Except.bind] at h
    | ok tail =>
      simp only [collectListings, he, ht, Bind.bind, Except.bind, pure,
        Except.pure, Except.ok.injEq] at h
      subst h
      by_cases hr : r.location = naStr
      · rw [if_neg (by simpa using hr)] at hd
        obtain ⟨link, hlink, hext⟩ := ih tail ht d hd
        exact ⟨link, List.mem_cons_of_mem link0 hlink, hext⟩
      · rw [if_pos (by simpa using hr)] at hd
        cases hd with
        | head => exact ⟨link0, List.mem_cons_self link0 rest, he⟩
        | tail _ hd =>
          obtain ⟨link, hlink, hext⟩ := ih tail ht d hd
          exact ⟨link, List.mem_cons_of_mem link0 hlink, hext⟩

/-! ## Extraction claims -/

/-- A concrete field-label schema. -/
def bugLabels : Labels :=
  ⟨"Price".data, "Area".data, "Bedrooms".data, "Bathrooms".data, "Location".data⟩

/-- A detail document whose area anchor label exists but which has no
following span: `soup.find("span", text=labels["area"]["text_label"])`
succeeds while `find_next("span")` returns `None`. -/
def missingNextSpanDoc : Doc where
  findSpanAria := fun lbl =>
    if lbl = "Price".data then some ⟨"1000 EGP".data⟩
    else if lbl = "Location".data then some ⟨"Smouha".data⟩
    else none
  findSpanText := fun lbl =>
    if lbl = "Area".data then some ⟨"Area".data⟩ else none
  findNextSpan := fun _ => none

/-- Claim C2 (code bug): on a document where the area anchor label exists
but no following span does, the code evaluates
`area_label.find_next("span").text` with `find_next` returning `None`, so
extraction raises `AttributeError` instead of resolving the field to
"N/A".  The embedded extraction returns the error at this input. -/
theorem c2_extract_raises_on_missing_next_span :
    missingNextSpanDoc.findSpanText bugLabels.areaText = some ⟨"Area".data⟩ ∧
    missingNextSpanDoc.findNextSpan ⟨"Area".data⟩ = none ∧
    extract_property_data missingNextSpanDoc bugLabels ["Smouha".data] =
      .error () :=
  ⟨rfl, rfl, rfl⟩

/-- Claim C5: in a successfully scraped site batch, a record extracted from
a collected link whose raw location contains none of the configured
neighborhoods has the sentinel location and is not in the batch; and a
record extracted from a collected link is in the batch exactly when its
post-processed location is not the sentinel. -/
theorem c5_acceptance_gate (sitePages : Nat → List (Option Str))
    (docs : Str → Doc) (labels : Labels) (neighborhoods : List Str)
    (maxPages : Nat) (batch : List Listing)
    (hok : scrape_website sitePages docs labels neighborhoods maxPages = .ok batch) :
    ∀ link ∈ (scrapeLinks sitePages maxPages).1, ∀ d,
      extract_property_data (docs link) labels neighborhoods = .ok d →
      ((neighborhoods.any
          (fun nb => strIn nb (rawLocationOf (docs link) labels)) = false →
        d.location = naStr ∧ d ∉ batch) ∧
       (d ∈ batch ↔ d.location ≠ naStr)) := by
  intro link hlink d hd
  have hok' : collectListings docs labels neighborhoods
      (scrapeLinks sitePages maxPages).1 = .ok batch := hok
  have hloc := extract_property_data_ok_location _ _ _ _ hd
  have hall := collectListings_location_ne docs labels neighborhoods _ _ hok'
  constructor
  · intro hraw
    have hna : d.location = naStr := by
      rw [hloc]
      simp [ensureLocationInAlexandria, hraw]
    exact ⟨hna, fun hin => hall d hin hna⟩
  · constructor
    · intro hin
      exact hall d hin
    · intro hne
      exact collectListings_mem docs labels neighborhoods _ _ hok' link hlink d hd hne

/-- Witness data for C5 and C10: a single-page site with one linked detail
document located in a configured neighborhood. -/
def acceptedDoc : Doc where
  findSpanAria := fun lbl =>
    if lbl = "Price".data then some ⟨"1000".data⟩
    else if lbl = "Location".data then some ⟨"Smouha".data⟩
    else none
  findSpanText := fun _ => none
  findNextSpan := fun _ => none

/-- Witness for C5: the accepted record is in the batch, and its location
differs from the sentinel. -/
theorem c5_acceptance_gate_witness :
    (⟨"1000".data, naStr, naStr, naStr, "Smouha, Alexandria".data⟩ : Listing) ∈
        [(⟨"1000".data, naStr, naStr, naStr, "Smouha, Alexandria".data⟩ : Listing)] ↔
      (⟨"1000".data, naStr, naStr, naStr,
        "Smouha, Alexandria".data⟩ : Listing).location ≠ naStr := by
  have h := c5_acceptance_gate
    (fun j => if j = 1 then [some "/p1".data] else []) (fun _ => acceptedDoc)
    bugLabels ["Smouha".data] 2
    [⟨"1000".data, naStr, naStr, naStr, "Smouha, Alexandria".data⟩]
    rfl "/p1".data (by decide)
    ⟨"1000".data, naStr, naStr, naStr, "Smouha, Alexandria".data⟩ rfl
  exact h.2

/-- Claim C10: assuming no configured neighborhood occurs in the sentinel
"N/A", every record of a successfully scraped site batch has a location
containing "Alexandria", and the second-pass normalization is a no-op on
it.  (The acceptance gate only passes locations produced by the
neighborhood branch, which always contain "Alexandria".) -/
theorem c10_accepted_contains_alexandria (sitePages : Nat → List (Option Str))
    (docs : Str → Doc) (labels : Labels) (neighborhoods : List Str)
    (maxPages : Nat) (batch : List Listing)
    (_hsafe : ∀ nb ∈ neighborhoods, strIn nb naStr = false)
    (hok : scrape_website sitePages docs labels neighborhoods maxPages = .ok batch) :
    ∀ d ∈ batch, strIn alexandria d.location = true ∧
      addAlexandriaIfMissing d.location = d.location := by
  intro d hd
  have hok' : collectListings docs labels neighborhoods
      (scrapeLinks sitePages maxPages).1 = .ok batch := hok
  obtain ⟨link, _, hext⟩ :=
    collectListings_source docs labels neighborhoods _ _ hok' d hd
  have hloc := extract_property_data_ok_location _ _ _ _ hext
  have hne : d.location ≠ naStr :=
    collectListings_location_ne docs labels neighborhoods _ _ hok' d hd
  have hstr : strIn alexandria d.location = true := by
    by_cases hraw : neighborhoods.any
        (fun nb => strIn nb (rawLocationOf (docs link) labels)) = true
    · by_cases halex : strIn alexandria (rawLocationOf (docs link) labels) = true
      · have : d.location = rawLocationOf (docs link) labels := by
          rw [hloc]
          simp [ensureLocationInAlexandria, hraw, halex]
        rw [this]
        exact halex
      · have : d.location = rawLocationOf (docs link) labels ++ commaAlexandria := by
          rw [hloc]
          simp only [ensureLocationInAlexandria, hraw, if_true]
          simp [halex]
        rw [this]
        exact strIn_append_right _ _ _ (by decide)
    · exfalso
      apply hne
      rw [hloc]
      simp only [ensureLocationInAlexandria]
      rw [if_neg (by simpa using hraw)]
  exact ⟨hstr, by simp [addAlexandriaIfMissing, hstr]⟩

/-- Witness for C10 at the concrete single-listing site of C5. -/
theorem c10_accepted_contains_alexandria_witness :
    strIn alexandria
        (⟨"1000".data, naStr, naStr, naStr,
          "Smouha, Alexandria".data⟩ : Listing).location = true ∧
    addAlexandriaIfMissing
        (⟨"1000".data, naStr, naStr, naStr,
          "Smouha, Alexandria".data⟩ : Listing).location =
      (⟨"1000".data, naStr, naStr, naStr,
        "Smouha, Alexandria".data⟩ : Listing).location :=
  c10_accepted_contains_alexandria
    (fun j => if j = 1 then [some "/p1".data] else []) (fun _ => acceptedDoc)
    bugLabels ["Smouha".data] 2
    [⟨"1000".data, naStr, naStr, naStr, "Smouha, Alexandria".data⟩]
    (by decide) rfl
    ⟨"1000".data, naStr, naStr, naStr, "Smouha, Alexandria".data⟩ (by decide)

/-- Claim C8 (amended): with no configured neighborhood occurring in the
sentinel "N/A", a document in which the extraction rule of exactly one field
matches no element (and every other rule fully matches) extracts to a
record holding the sentinel for exactly that field and the extracted
values for the other fields, the location post-processed as always; the
record always has exactly the five fields of `Listing`. -/
theorem c8_field_fallback_amended (soup : Doc) (labels : Labels)
    (neighborhoods : List Str)
    (hsafe : ∀ nb ∈ neighborhoods, strIn nb naStr = false) :
    (∀ aL aV bL bV cL cV lE,
      soup.findSpanAria labels.priceAria = none →
      soup.findSpanText labels.areaText = some aL →
      soup.findNextSpan aL = some aV →
      soup.findSpanText labels.bedroomsText = some bL →
      soup.findNextSpan bL = some bV →
      soup.findSpanText labels.bathroomsText = some cL →
      soup.findNextSpan cL = some cV →
      soup.findSpanAria labels.locationAria = some lE →
      extract_property_data soup labels neighborhoods = .ok
        ⟨naStr, strip aV.text, strip bV.text, strip cV.text,
         ensureLocationInAlexandria neighborhoods (strip lE.text)⟩) ∧
    (∀ pE bL bV cL cV lE,
      soup.findSpanAria labels.priceAria = some pE →
      soup.findSpanText labels.areaText = none →
      soup.findSpanText labels.bedroomsText = some bL →
      soup.findNextSpan bL = some bV →
      soup.findSpanText labels.bathroomsText = some cL →
      soup.findNextSpan cL = some cV →
      soup.findSpanAria labels.locationAria = some lE →
      extract_property_data soup labels neighborhoods = .ok
        ⟨strip pE.text, naStr, strip bV.text, strip cV.text,
         ensureLocationInAlexandria neighborhoods (strip lE.text)⟩) ∧
    (∀ pE aL aV cL cV lE,
      soup.findSpanAria labels.priceAria = some pE →
      soup.findSpanText labels.areaText = some aL →
      soup.findNextSpan aL = some aV →
      soup.findSpanText labels.bedroomsText = none →
      soup.findSpanText labels.bathroomsText = some cL →
      soup.findNextSpan cL = some cV →
      soup.findSpanAria labels.locationAria = some lE →
      extract_property_data soup labels neighborhoods = .ok
        ⟨strip pE.text, strip aV.text, naStr, strip cV.text,
         ensureLocationInAlexandria neighborhoods (strip lE.text)⟩) ∧
    (∀ pE aL aV bL bV lE,
      soup.findSpanAria labels.priceAria = some pE →
      soup.findSpanText labels.areaText = some aL →
      soup.findNextSpan aL = some aV →
      soup.findSpanText labels.bedroomsText = some bL →
      soup.findNextSpan bL = some bV →
      soup.findSpanText labels.bathroomsText = none →
      soup.findSpanAria labels.locationAria = some lE →
      extract_property_data soup labels neighborhoods = .ok
        ⟨strip pE.text, strip aV.text, strip bV.text, naStr,
         ensureLocationInAlexandria neighborhoods (strip lE.text)⟩) ∧
    (∀ pE aL aV bL bV cL cV,
      soup.findSpanAria labels.priceAria = some pE →
      soup.findSpanText labels.areaText = some aL →
      soup.findNextSpan aL = some aV →
      soup.findSpanText labels.bedroomsText = some bL →
      soup.findNextSpan bL = some bV →
      soup.findSpanText labels.bathroomsText = some cL →
      soup.findNextSpan cL = some cV →
      soup.findSpanAria labels.locationAria = none →
      extract_property_data soup labels neighborhoods = .ok
        ⟨strip pE.text, strip aV.text, strip bV.text, strip cV.text, naStr⟩) := by
  have hNA : ensureLocationInAlexandria neighborhoods naStr = naStr := by
    have : neighborhoods.any (fun nb => strIn nb naStr) = false := by
      rw [List.any_eq_false]
      intro nb hnb
      simp [hsafe nb hnb]
    simp [ensureLocationInAlexandria, this]
  refine ⟨?_, ?_, ?_, ?_, ?_⟩
  · intro aL aV bL bV cL cV lE h1 h2 h3 h4 h5 h6 h7 h8
    rw [extract_property_data_eq_ok soup labels neighborhoods
      (strip aV.text) (strip bV.text) (strip cV.text)
      (by simp [textAnchorField, h2, h3]) (by simp [textAnchorField, h4, h5])
      (by simp [textAnchorField, h6, h7])]
    simp [rawLocationOf, h1, h8]
  · intro pE bL bV cL cV lE h1 h2 h3 h4 h5 h6 h7
    rw [extract_property_data_eq_ok soup labels neighborhoods
      naStr (strip bV.text) (strip cV.text)
      (by simp [textAnchorField, h2]) (by simp [textAnchorField, h3, h4])
      (by simp [textAnchorField, h5, h6])]
    simp [rawLocationOf, h1, h7]
  · intro pE aL aV cL cV lE h1 h2 h3 h4 h5 h6 h7
    rw [extract_property_data_eq_ok soup labels neighborhoods
      (strip aV.text) naStr (strip cV.text)
      (by simp [textAnchorField, h2, h3]) (by simp [textAnchorField, h4])
      (by simp [textAnchorField, h5, h6])]
    simp [rawLocationOf, h1, h7]
  · intro pE aL aV bL bV lE h1 h2 h3 h4 h5 h6 h7
    rw [extract_property_data_eq_ok soup labels neighborhoods
      (strip aV.text) (strip bV.text) naStr
      (by simp [textAnchorField, h2, h3]) (by simp [textAnchorField, h4, h5])
      (by simp [textAnchorField, h6])]
    simp [rawLocationOf, h1, h7]
  · intro pE aL aV bL bV cL cV h1 h2 h3 h4 h5 h6 h7 h8
    rw [extract_property_data_eq_ok soup labels neighborhoods
      (strip aV.text) (strip bV.text) (strip cV.text)
      (by simp [textAnchorField, h2, h3]) (by simp [textAnchorField, h4, h5])
      (by simp [textAnchorField, h6, h7])]
    simp [rawLocationOf, h1, h8, hNA]

/-- A detail document where every rule matches except the price rule. -/
def priceMissingDoc : Doc where
  findSpanAria := fun lbl =>
    if lbl = "Location".data then some ⟨" Smouha ".data⟩ else none
  findSpanText := fun lbl =>
    if lbl = "Area".data then some ⟨"AreaL".data⟩
    else if lbl = "Bedrooms".data then some ⟨"BedL".data⟩
    else if lbl = "Bathrooms".data then some ⟨"BathL".data⟩
    else none
  findNextSpan := fun e =>
    if e = ⟨"AreaL".data⟩ then some ⟨"120".data⟩
    else if e = ⟨"BedL".data⟩ then some ⟨"3".data⟩
    else if e = ⟨"BathL".data⟩ then some ⟨"2".data⟩
    else none

/-- Witness for the amended C8: only the price rule fails, so only the
price field carries the sentinel, and the location is post-processed. -/
theorem c8_field_fallback_amended_witness :
    extract_property_data priceMissingDoc bugLabels ["Smouha".data] = .ok
      ⟨naStr, "120".data, "3".data, "2".data, "Smouha, Alexandria".data⟩ := by
  have h := (c8_field_fallback_amended priceMissingDoc bugLabels
      ["Smouha".data] (by decide)).1
    ⟨"AreaL".data⟩ ⟨"120".data⟩ ⟨"BedL".data⟩ ⟨"3".data⟩ ⟨"BathL".data⟩
    ⟨"2".data⟩ ⟨" Smouha ".data⟩ rfl rfl rfl rfl rfl rfl rfl rfl
  rw [h]
  rfl

/-- A detail document where every rule matches except the location rule. -/
def locationMissingDoc : Doc where
  findSpanAria := fun lbl =>
    if lbl = "Price".data then some ⟨"1000".data⟩ else none
  findSpanText := fun lbl =>
    if lbl = "Area".data then some ⟨"AreaL".data⟩
    else if lbl = "Bedrooms".data then some ⟨"BedL".data⟩
    else if lbl = "Bathrooms".data then some ⟨"BathL".data⟩
    else none
  findNextSpan := fun e =>
    if e = ⟨"AreaL".data⟩ then some ⟨"120".data⟩
    else if e = ⟨"BedL".data⟩ then some ⟨"3".data⟩
    else if e = ⟨"BathL".data⟩ then some ⟨"2".data⟩
    else none

/-- Claim C8 (counterexample): with the configured neighborhood "A" (which
occurs in the sentinel "N/A"), a document whose location rule alone
matches no element yields the location "N/A, Alexandria" instead of the
sentinel: the post-processing mangles the fallback value, so the claim as
stated fails. -/
theorem c8_sentinel_mangled_counterexample :
    locationMissingDoc.findSpanAria bugLabels.locationAria = none ∧
    extract_property_data locationMissingDoc bugLabels [['A']] = .ok
      ⟨"1000".data, "120".data, "3".data, "2".data, "N/A, Alexandria".data⟩ ∧
    ("N/A, Alexandria".data : Str) ≠ naStr :=
  ⟨rfl, rfl, by decide⟩

end MapValue
